import Mathlib

/-
Verification of the core logic of a chess GUI (src/src/main.rs):
the FEN codec (Game::parse_fen, Game::update_fen, Game::new), the
coordinate translator ( get_algebraic_notation) and the click-driven
selection controller (AppState::mouse_button_up_event).

Strings are modelled as lists of characters. The external move resolver
(the chess crate's game_turn) is an opaque function parameter. A Rust
panic is modelled as an explicit failure value; for update_fen and the
event handler the failure value carries the fields already mutated when
the panic fires, since those assignments are observable partial state.

The position format's alphabet is ASCII. On ASCII, Rust's
char::is_numeric coincides with decimal-digit testing and
char::to_digit(10) is defined exactly on the digits, so the .expect on
to_digit in the source cannot fire on these inputs; the embedding uses
that identification.
-/

/-- Strings of the program, as lists of characters. -/
abbrev Str := List Char

/-- Rust str::split(sep): splits at every separator occurrence and keeps
empty pieces, so the result is always nonempty. -/
def splitOnChar (sep : Char) : Str → List Str
  | [] => [[]]
  | c :: rest =>
    if c = sep then [] :: splitOnChar sep rest
    else
      match splitOnChar sep rest with
      | [] => [[c]]
      | f :: fs => (c :: f) :: fs

/-- Rust char::is_numeric, restricted to the ASCII alphabet of the
position format, where it coincides with the decimal-digit test. -/
def char_is_numeric (c : Char) : Bool := c.isDigit

/-- Rust char::to_digit(10): on the ASCII digits (exactly where
char_is_numeric holds on this alphabet) it returns the digit value, so
the source's .expect never fires there. -/
def to_digit (c : Char) : Nat := c.toNat - 48

/-- One step of the row-building loop of parse_fen/update_fen: a numeric
character d pushes d empty cells (the marker character 0x2a), any other
character is pushed as-is. -/
def expandRowStep (row : Str) (c : Char) : Str :=
  if char_is_numeric c then row ++ List.replicate (to_digit c) (Char.ofNat 42)
  else row ++ [c]

/-- The inner character loop of parse_fen/update_fen over one row
substring; the mutable row buffer is the fold accumulator (the source
clears that buffer after each row, so rows are independent). -/
def expandRow (cs : Str) : Str := List.foldl expandRowStep [] cs

/-- Game of the source: FEN text, side to move, decoded board. -/
structure Game where
  fen : Str
  turn : Char
  board : List Str
deriving DecidableEq, Repr

/-- Game::parse_fen. Returns none where the source panics: indexing
fen_vec[1] with fewer than two space-delimited fields, or taking
chars()[0] of an empty second field. -/
def parse_fen (fen : Str) : Option Game :=
  let fen_vec := splitOnChar (Char.ofNat 32) fen
  let board_state_vec := splitOnChar (Char.ofNat 47) (fen_vec.getD 0 [])
  let board_state := board_state_vec.map expandRow
  match fen_vec[1]? with
  | none => none
  | some [] => none
  | some (t :: _) => some { fen := fen, turn := t, board := board_state }

/-- Result of Game::update_fen: either the updated game, or the observable
state at the moment a panic fired. -/
inductive UpdateResult where
  | ok (g : Game) : UpdateResult
  | panicked (g : Game) : UpdateResult
deriving DecidableEq, Repr

/-- Game::update_fen. The source assigns self.fen = fen.clone() before
evaluating fen_vec[1].chars()[0]; when that indexing panics, fen has
already been overwritten while turn and board still hold their prior
values, which the panicked result records. -/
def update_fen (g : Game) (fen : Str) : UpdateResult :=
  let fen_vec := splitOnChar (Char.ofNat 32) fen
  let board_state_vec := splitOnChar (Char.ofNat 47) (fen_vec.getD 0 [])
  let board_state := board_state_vec.map expandRow
  match fen_vec[1]? with
  | none => UpdateResult.panicked { g with fen := fen }
  | some [] => UpdateResult.panicked { g with fen := fen }
  | some (t :: _) => UpdateResult.ok { fen := fen, turn := t, board := board_state }

/-- The fixed initial position string of Game::new. -/
def initFen : Str :=
  "rnbqkbnr/pppppppp/8/8/8/8/PPPPPPPP/RNBQKBNR w KQkq - 0 1".toList

/-- Game::new: parse the fixed initial position. -/
def Game.new : Option Game := parse_fen initFen

/-- Decimal rendering of a signed integer, as the source's format! does
for the rank 8 - y_pos. -/
def i32ToStr (n : Int) : Str := (toString n).toList

/-- get_algebraic_notation. Returns none where the source panics: the
column index is cast to usize before chars().nth, so a negative column
wraps far past the 8-character file string and nth fails, exactly as it
does for a column above 7. The rank 8 - y_pos is rendered without any
bound check. -/
def get_algebraic_notation (x_pos y_pos : Int) : Option Str :=
  let col_names := "abcdefgh".toList
  match (if 0 ≤ x_pos then col_names[x_pos.toNat]? else none) with
  | none => none
  | some col_name => some (col_name :: i32ToStr (8 - y_pos))

/-- The fields of AppState the event handler reads and writes (sprites
and the debug flag only affect rendering). piece_picked_up is the
source's vector used as an optional pair of grid coordinates. -/
structure AppState where
  game : Game
  piece_picked_up : List Int
deriving DecidableEq, Repr

/-- ggez mouse buttons, as matched by the handler. -/
inductive MouseButton where
  | left
  | right
  | middle
  | other
deriving DecidableEq, Repr

/-- Outcome of one mouse_button_up_event call: the resulting AppState and
the move requests handed to the resolver during the call, or the
observable state at a panic together with the requests already sent. -/
inductive StepOutcome where
  | ok (st : AppState) (emitted : List Str) : StepOutcome
  | panicked (st : AppState) (emitted : List Str) : StepOutcome
deriving DecidableEq, Repr

/-- The AppState held in a step outcome. -/
def StepOutcome.appState : StepOutcome → AppState
  | StepOutcome.ok st _ => st
  | StepOutcome.panicked st _ => st

/-- The move requests emitted by a step. -/
def StepOutcome.emitted : StepOutcome → List Str
  | StepOutcome.ok _ es => es
  | StepOutcome.panicked _ es => es

/-- AppState::mouse_button_up_event, as a function of the integer grid
coordinates floor(pos.x / 90) and floor(pos.y / 90) (the pixel division
itself is outside this model). game_turn is the opaque external
resolver from the chess crate. The source:
- handles only the left button;
- guards the grid branch with board_pos_x <= 7 alone (no row bound,
  no negative-column bound);
- first prints the algebraic notation of the click, which panics for a
  column outside 0..7;
- with no piece picked up, arms piece_picked_up = [x, y];
- otherwise reads piece_picked_up[0] and [1] (panicking on a too-short
  vector), builds the request "source target", calls the resolver and
  update_fen, then clears piece_picked_up — so a panicking update leaves
  the selection armed;
- outside the grid branch, a click at column 10 or 11 and row 2 replaces
  the game with Game::new(), touching nothing else. -/
def mouse_button_up_event (game_turn : Str → Str → Str) (st : AppState)
    (board_pos_x board_pos_y : Int) (button : MouseButton) : StepOutcome :=
  if button = MouseButton.left then
    if board_pos_x ≤ 7 then
      match get_algebraic_notation board_pos_x board_pos_y with
      | none => StepOutcome.panicked st []
      | some tgt =>
        if st.piece_picked_up.isEmpty then
          StepOutcome.ok { st with piece_picked_up := [board_pos_x, board_pos_y] } []
        else
          match st.piece_picked_up[0]?, st.piece_picked_up[1]? with
          | some p0, some p1 =>
            (match get_algebraic_notation p0 p1 with
            | none => StepOutcome.panicked st []
            | some src =>
              let action := src ++ Char.ofNat 32 :: tgt
              match update_fen st.game (game_turn st.game.fen action) with
              | UpdateResult.ok g2 =>
                StepOutcome.ok { game := g2, piece_picked_up := [] } [action]
              | UpdateResult.panicked g2 =>
                StepOutcome.panicked { game := g2, piece_picked_up := st.piece_picked_up }
                  [action])
          | _, _ => StepOutcome.panicked st []
    else
      if (board_pos_x = 10 ∨ board_pos_x = 11) ∧ board_pos_y = 2 then
        match Game.new with
        | some g => StepOutcome.ok { st with game := g } []
        | none => StepOutcome.panicked st []
      else StepOutcome.ok st []
  else StepOutcome.ok st []

/-- The decoded initial game: standard starting position, white to move. -/
def initGame : Game :=
  { fen := initFen, turn := 'w',
    board := ["rnbqkbnr".toList, "pppppppp".toList,
      List.replicate 8 (Char.ofNat 42), List.replicate 8 (Char.ofNat 42),
      List.replicate 8 (Char.ofNat 42), List.replicate 8 (Char.ofNat 42),
      "PPPPPPPP".toList, "RNBQKBNR".toList] }

/-- A trivial stand-in for the external resolver, used to instantiate
theorems at concrete inputs: it returns the current position unchanged. -/
def constResolver : Str → Str → Str := fun fen _ => fen

lemma game_new_eq : Game.new = some initGame := by decide

lemma expandRowStep_append (acc : Str) (c : Char) :
    expandRowStep acc c = acc ++ expandRowStep [] c := by
  unfold expandRowStep
  split <;> simp

lemma foldl_expandRowStep_append (cs : Str) :
    ∀ acc : Str, List.foldl expandRowStep acc cs = acc ++ List.foldl expandRowStep [] cs := by
  induction cs with
  | nil => intro acc; simp
  | cons c cs ih =>
    intro acc
    simp only [List.foldl_cons]
    rw [ih (expandRowStep acc c), ih (expandRowStep [] c),
      expandRowStep_append acc c, List.append_assoc]

lemma expandRowStep_nil (c : Char) :
    expandRowStep [] c =
      (if char_is_numeric c then List.replicate (to_digit c) (Char.ofNat 42) else [c]) := by
  unfold expandRowStep
  split <;> simp

lemma expandRow_cons (c : Char) (cs : Str) :
    expandRow (c :: cs) =
      (if char_is_numeric c then List.replicate (to_digit c) (Char.ofNat 42) else [c])
        ++ expandRow cs := by
  unfold expandRow
  simp only [List.foldl_cons]
  rw [foldl_expandRowStep_append cs (expandRowStep [] c), expandRowStep_nil]

lemma update_fen_eq_ok (g₀ : Game) (s : Str) (g' : Game) (h : parse_fen s = some g') :
    update_fen g₀ s = UpdateResult.ok g' := by
  simp only [parse_fen] at h
  simp only [update_fen]
  rcases hsplit : (splitOnChar (Char.ofNat 32) s)[1]? with _ | (_ | ⟨t, rest⟩) <;>
    rw [hsplit] at h <;> simp_all

lemma gan_eq (x y : Int) (h0 : 0 ≤ x) (h7 : x ≤ 7) :
    get_algebraic_notation x y = some (Char.ofNat (97 + x.toNat) :: i32ToStr (8 - y)) := by
  have h8 : x.toNat < 8 := by omega
  have hidx : ∀ m : Nat, m < 8 → ("abcdefgh".toList)[m]? = some (Char.ofNat (97 + m)) := by
    decide
  simp only [ get_algebraic_notation]
  rw [if_pos h0, hidx x.toNat h8]

/-- C1: GameState replacement is NOT atomic: update_fen assigns the fen
field before indexing the second space-delimited field, so on the
one-field input "x" it panics having already overwritten fen while turn
and board keep their prior values — the code contradicts the spec's
stated policy that a failed decode leaves the prior state wholly
unchanged. -/
theorem update_fen_partial_overwrite_on_missing_field :
    update_fen initGame ['x'] =
      UpdateResult.panicked { fen := ['x'], turn := 'w', board := initGame.board } ∧
    initGame.fen ≠ ['x'] := by decide

/-- C3 counterexample: the claim says decoding fails when a digit exceeds
the remaining width of its 8-cell row, but parse_fen applies no width
check: on "9/8/8/8/8/8/8/8 w" the digit 9 exceeds the 8-cell width yet
decoding succeeds, silently producing a 9-cell first row. -/
theorem decode_succeeds_on_overlong_digit_row :
    parse_fen "9/8/8/8/8/8/8/8 w".toList =
      some { fen := "9/8/8/8/8/8/8/8 w".toList,
             turn := 'w',
             board := List.replicate 9 (Char.ofNat 42)
               :: List.replicate 7 (List.replicate 8 (Char.ofNat 42)) } := by decide

/-- C3 amended: over the format's ASCII alphabet, decoding fails exactly
when the input has fewer than two space-delimited fields or its second
field is empty; a digit exceeding the remaining row width never causes
failure. -/
theorem parse_fen_fails_iff_no_second_field :
    ∀ s : Str, parse_fen s = none ↔
      ((splitOnChar (Char.ofNat 32) s).length < 2 ∨
        (splitOnChar (Char.ofNat 32) s)[1]? = some []) := by
  intro s
  simp only [parse_fen]
  rcases hsplit : (splitOnChar (Char.ofNat 32) s)[1]? with _ | (_ | ⟨t, rest⟩)
  · have hlen := List.getElem?_eq_none_iff.mp hsplit
    simp only [hsplit]
    simp
    omega
  · simp only [hsplit]
    simp
  · have hlen : 1 < (splitOnChar (Char.ofNat 32) s).length :=
      (List.getElem?_eq_some_iff.mp hsplit).1
    simp only [hsplit]
    simp
    omega

/-- C4: decoding splits the input into space-delimited fields, the first
being the board layout and the second the side-to-move indicator, splits
the board field on the row separator 0x2f processed in order (top row
first), and scans each row character by character, expanding a digit d
into d empty cells and appending any other character directly. -/
theorem parse_fen_splits_fields_and_expands_rows :
    (∀ (s : Str) (g : Game), parse_fen s = some g →
      g.board = (splitOnChar (Char.ofNat 47)
        ((splitOnChar (Char.ofNat 32) s).getD 0 [])).map expandRow ∧
      ∃ rest, (splitOnChar (Char.ofNat 32) s)[1]? = some (g.turn :: rest)) ∧
    (∀ (c : Char) (cs : Str), expandRow (c :: cs) =
      (if char_is_numeric c then List.replicate (to_digit c) (Char.ofNat 42) else [c])
        ++ expandRow cs) := by
  constructor
  · intro s g h
    simp only [parse_fen] at h
    rcases hsplit : (splitOnChar (Char.ofNat 32) s)[1]? with _ | (_ | ⟨t, rest⟩) <;>
      rw [hsplit] at h
    · exact absurd h (by simp)
    · exact absurd h (by simp)
    · injection h with hg
      subst hg
      exact ⟨rfl, rest, rfl⟩
  · intro c cs
    exact expandRow_cons c cs

/-- C4 witness: the initial position, and the expansion of one row
fragment beginning with a digit. -/
theorem parse_fen_splits_fields_and_expands_rows_witness :
    (initGame.board = (splitOnChar (Char.ofNat 47)
        ((splitOnChar (Char.ofNat 32) initFen).getD 0 [])).map expandRow ∧
      ∃ rest, (splitOnChar (Char.ofNat 32) initFen)[1]? = some (initGame.turn :: rest)) ∧
    expandRow ('3' :: ['p']) =
      (if char_is_numeric '3' then List.replicate (to_digit '3') (Char.ofNat 42) else ['3'])
        ++ expandRow ['p'] :=
  ⟨parse_fen_splits_fields_and_expands_rows.1 initFen initGame (by decide),
   parse_fen_splits_fields_and_expands_rows.2 '3' ['p']⟩

/-- C5: the coordinate translator is total over valid squares and returns
the two-character label with file character 97 + column (0x61 is the
letter a) and rank character 8 - row; in particular it sends (0,0) to
"a8", (7,7) to "h1" and (4,1) to "e7". -/
theorem toLabel_total_on_valid_squares :
    ∀ x y : Int, 0 ≤ x → x ≤ 7 → 0 ≤ y → y ≤ 7 →
      get_algebraic_notation x y =
        some [Char.ofNat (97 + x.toNat), Char.ofNat (48 + (8 - y.toNat))] := by
  intro x y hx0 hx7 hy0 hy7
  have hy8 : y.toNat < 8 := by omega
  have hrank : ∀ n : Nat, n < 8 → i32ToStr (8 - (n : Int)) = [Char.ofNat (48 + (8 - n))] := by
    decide
  have hy : ((y.toNat : Int)) = y := Int.toNat_of_nonneg hy0
  have hrank9 : i32ToStr (8 - y) = [Char.ofNat (48 + (8 - y.toNat))] := by
    have h := hrank y.toNat hy8
    rwa [hy] at h
  rw [gan_eq x y hx0 hx7, hrank9]

/-- C5 witness: the translator at (4,1) yields "e7". -/
theorem toLabel_total_on_valid_squares_witness :
    get_algebraic_notation 4 1 =
      some [Char.ofNat (97 + (4 : Int).toNat), Char.ofNat (48 + (8 - (1 : Int).toNat))] :=
  toLabel_total_on_valid_squares 4 1 (by decide) (by decide) (by decide) (by decide)

/-- C6: decoding the fixed startup position string yields the standard
starting grid — back ranks on the top and bottom rows, full pawn rows
below and above them, four empty middle rows — with side to move w. -/
theorem parse_fen_initial_position :
    parse_fen initFen =
      some { fen := initFen,
             turn := 'w',
             board := ["rnbqkbnr".toList, "pppppppp".toList,
               List.replicate 8 (Char.ofNat 42), List.replicate 8 (Char.ofNat 42),
               List.replicate 8 (Char.ofNat 42), List.replicate 8 (Char.ofNat 42),
               "PPPPPPPP".toList, "RNBQKBNR".toList] } := by decide

/-- C8: the position text is stored verbatim — whenever decoding
succeeds, the fen field after parse_fen or update_fen equals the input
string character for character, extra fields included. -/
theorem fen_stored_verbatim :
    (∀ (s : Str) (g : Game), parse_fen s = some g → g.fen = s) ∧
    (∀ (g₀ : Game) (s : Str) (g' : Game),
      update_fen g₀ s = UpdateResult.ok g' → g'.fen = s) := by
  constructor
  · intro s g h
    simp only [parse_fen] at h
    rcases hsplit : (splitOnChar (Char.ofNat 32) s)[1]? with _ | (_ | ⟨t, rest⟩) <;>
      rw [hsplit] at h <;> simp_all
    exact h.symm ▸ rfl
  · intro g₀ s g' h
    simp only [update_fen] at h
    rcases hsplit : (splitOnChar (Char.ofNat 32) s)[1]? with _ | (_ | ⟨t, rest⟩) <;>
      rw [hsplit] at h <;> simp_all
    exact h.symm ▸ rfl

/-- C8 witness: a full six-field input and a bare two-field input are
both stored verbatim. -/
theorem fen_stored_verbatim_witness :
    initGame.fen = initFen ∧
    (Game.mk "8/8/8/8/8/8/8/8 b".toList 'b'
      (List.replicate 8 (List.replicate 8 (Char.ofNat 42)))).fen =
        "8/8/8/8/8/8/8/8 b".toList :=
  ⟨fen_stored_verbatim.1 initFen initGame (by decide),
   fen_stored_verbatim.2 initGame "8/8/8/8/8/8/8/8 b".toList
     (Game.mk "8/8/8/8/8/8/8/8 b".toList 'b'
       (List.replicate 8 (List.replicate 8 (Char.ofNat 42)))) (by decide)⟩

/-- C9: update_fen is equivalent to parse_fen on every successfully
decoded input — the resulting (fen, turn, board) triple is the one
parse_fen builds, whatever the prior game. -/
theorem update_fen_refines_parse_fen :
    ∀ (s : Str) (g₀ g' : Game), parse_fen s = some g' →
      update_fen g₀ s = UpdateResult.ok g' :=
  fun s g₀ g' h => update_fen_eq_ok g₀ s g' h

/-- C9 witness: updating the initial game with an empty-board position
gives exactly the game parse_fen builds from it. -/
theorem update_fen_refines_parse_fen_witness :
    update_fen initGame "8/8/8/8/8/8/8/8 b".toList =
      UpdateResult.ok (Game.mk "8/8/8/8/8/8/8/8 b".toList 'b'
        (List.replicate 8 (List.replicate 8 (Char.ofNat 42)))) :=
  update_fen_refines_parse_fen "8/8/8/8/8/8/8/8 b".toList initGame
    (Game.mk "8/8/8/8/8/8/8/8 b".toList 'b'
      (List.replicate 8 (List.replicate 8 (Char.ofNat 42)))) (by decide)


/-- C2: the selection controller is a two-state machine. From Idle (empty
piece_picked_up), a left release on a grid cell arms the selection with
that cell and emits nothing. From Armed(C), a left release on any grid
cell D — including D = C — emits the single request "label(C) label(D)"
and clears the selection back to Idle, for every resolver whose reply is
a decodable position (the resolver's contract), so independently of
which position the resolver returns. -/
theorem selection_controller_two_state_machine :
    (∀ (f : Str → Str → Str) (st : AppState) (x y : Int),
      0 ≤ x → x ≤ 7 → 0 ≤ y → y ≤ 7 → st.piece_picked_up = [] →
      mouse_button_up_event f st x y MouseButton.left =
        StepOutcome.ok { st with piece_picked_up := [x, y] } []) ∧
    (∀ (f : Str → Str → Str) (st : AppState) (cx cy x y : Int) (src tgt : Str) (g' : Game),
      0 ≤ cx → cx ≤ 7 → 0 ≤ cy → cy ≤ 7 → 0 ≤ x → x ≤ 7 → 0 ≤ y → y ≤ 7 →
      st.piece_picked_up = [cx, cy] →
      get_algebraic_notation cx cy = some src →
      get_algebraic_notation x y = some tgt →
      parse_fen (f st.game.fen (src ++ Char.ofNat 32 :: tgt)) = some g' →
      mouse_button_up_event f st x y MouseButton.left =
        StepOutcome.ok { game := g', piece_picked_up := [] }
          [src ++ Char.ofNat 32 :: tgt]) := by
  constructor
  · intro f st x y hx0 hx7 hy0 hy7 hsel
    simp [mouse_button_up_event, hx7, gan_eq x y hx0 hx7, hsel]
  · intro f st cx cy x y src tgt g' hcx0 hcx7 hcy0 hcy7 hx0 hx7 hy0 hy7 hsel hsrc htgt hres
    simp [mouse_button_up_event, hx7, htgt, hsel, hsrc,
      update_fen_eq_ok st.game (f st.game.fen (src ++ Char.ofNat 32 :: tgt)) g' hres]

/-- C2 witness: from Idle, a left release at (2,3) arms the selection and
emits nothing; from Armed((2,3)), a left release at (2,5) emits the
single request "c5 c3" and clears the selection, with the resolver that
replies with the current position. -/
theorem selection_controller_two_state_machine_witness :
    mouse_button_up_event constResolver { game := initGame, piece_picked_up := [] }
      2 3 MouseButton.left =
      StepOutcome.ok { game := initGame, piece_picked_up := [2, 3] } [] ∧
    mouse_button_up_event constResolver { game := initGame, piece_picked_up := [2, 3] }
      2 5 MouseButton.left =
      StepOutcome.ok { game := initGame, piece_picked_up := [] } ["c5 c3".toList] :=
  ⟨selection_controller_two_state_machine.1 constResolver
     { game := initGame, piece_picked_up := [] } 2 3
     (by decide) (by decide) (by decide) (by decide) rfl,
   selection_controller_two_state_machine.2 constResolver
     { game := initGame, piece_picked_up := [2, 3] } 2 3 2 5
     "c5".toList "c3".toList initGame
     (by decide) (by decide) (by decide) (by decide) (by decide) (by decide)
     (by decide) (by decide) rfl (by decide) (by decide) (by decide)⟩

/-- C7 counterexample: the grid coordinates (0,9) lie outside the 8x8
playable area (row 9), yet a left release there arms the selection — the
handler checks only the column bound, so the claim that out-of-grid
clicks never change the selection is false. -/
theorem out_of_grid_row_click_arms_selection :
    mouse_button_up_event constResolver { game := initGame, piece_picked_up := [] }
      0 9 MouseButton.left =
      StepOutcome.ok { game := initGame, piece_picked_up := [0, 9] } [] := by decide

/-- C7 amended: only clicks whose column exceeds 7 are kept from the
state machine: they leave the selection unchanged and emit no request
(for any button). The handler performs no row bound or negative-column
check, so other out-of-grid coordinates are treated as grid clicks. -/
theorem high_column_click_preserves_selection :
    ∀ (f : Str → Str → Str) (st : AppState) (x y : Int) (b : MouseButton),
      7 < x →
      (mouse_button_up_event f st x y b).appState.piece_picked_up = st.piece_picked_up ∧
      (mouse_button_up_event f st x y b).emitted = [] := by
  intro f st x y b hx
  have hx7 : ¬ x ≤ 7 := by omega
  cases b
  case left =>
    by_cases hcond : (x = 10 ∨ x = 11) ∧ y = 2
    · simp [mouse_button_up_event, hx7, hcond, game_new_eq,
        StepOutcome.appState, StepOutcome.emitted]
    · simp [mouse_button_up_event, hx7, hcond,
        StepOutcome.appState, StepOutcome.emitted]
  all_goals
    simp [mouse_button_up_event, StepOutcome.appState, StepOutcome.emitted]

/-- C7 amended witness: a left release at (10,2) — the restart control —
leaves an armed selection [3,3] armed and emits nothing. -/
theorem high_column_click_preserves_selection_witness :
    (mouse_button_up_event constResolver { game := initGame, piece_picked_up := [3, 3] }
      10 2 MouseButton.left).appState.piece_picked_up = [3, 3] ∧
    (mouse_button_up_event constResolver { game := initGame, piece_picked_up := [3, 3] }
      10 2 MouseButton.left).emitted = [] :=
  high_column_click_preserves_selection constResolver
    { game := initGame, piece_picked_up := [3, 3] } 10 2 MouseButton.left (by decide)

/-- C10: a left release at column 10 or 11, row 2 replaces the game with
the freshly parsed initial position and leaves piece_picked_up exactly
as it was; and from any armed selection, the next in-grid click emits a
request whose source label is that of the armed square — so a selection
armed before a restart survives it and the subsequent request refers to
the pre-restart square. -/
theorem restart_preserves_selection :
    (∀ (f : Str → Str → Str) (st : AppState) (x : Int),
      x = 10 ∨ x = 11 →
      mouse_button_up_event f st x 2 MouseButton.left =
        StepOutcome.ok { st with game := initGame } []) ∧
    (∀ (f : Str → Str → Str) (g : Game) (cx cy x y : Int) (src tgt : Str),
      0 ≤ cx → cx ≤ 7 → 0 ≤ cy → cy ≤ 7 → 0 ≤ x → x ≤ 7 → 0 ≤ y → y ≤ 7 →
      get_algebraic_notation cx cy = some src →
      get_algebraic_notation x y = some tgt →
      (mouse_button_up_event f { game := g, piece_picked_up := [cx, cy] } x y
        MouseButton.left).emitted = [src ++ Char.ofNat 32 :: tgt]) := by
  constructor
  · intro f st x hx
    rcases hx with rfl | rfl <;> simp [mouse_button_up_event, game_new_eq]
  · intro f g cx cy x y src tgt hcx0 hcx7 hcy0 hcy7 hx0 hx7 hy0 hy7 hsrc htgt
    simp [mouse_button_up_event, hx7, htgt, hsrc, StepOutcome.emitted]
    cases update_fen g (f g.fen (src ++ Char.ofNat 32 :: tgt)) <;>
      simp [StepOutcome.emitted]

/-- C10 witness: restarting from an armed state keeps the selection
[4,6]; the following click at (4,4) emits "e2 e4", sourced at the square
armed beforehand. -/
theorem restart_preserves_selection_witness :
    mouse_button_up_event constResolver { game := initGame, piece_picked_up := [4, 6] }
      10 2 MouseButton.left =
      StepOutcome.ok { game := initGame, piece_picked_up := [4, 6] } [] ∧
    (mouse_button_up_event constResolver { game := initGame, piece_picked_up := [4, 6] }
      4 4 MouseButton.left).emitted = ["e2 e4".toList] :=
  ⟨restart_preserves_selection.1 constResolver
     { game := initGame, piece_picked_up := [4, 6] } 10 (Or.inl rfl),
   restart_preserves_selection.2 constResolver initGame 4 6 4 4 "e2".toList "e4".toList
     (by decide) (by decide) (by decide) (by decide) (by decide) (by decide)
     (by decide) (by decide) (by decide) (by decide)⟩
